import Mathlib

/-!
Verification of the transfer pipeline of a Telegram → Google Drive uploader bot.

The development shallowly embeds the pure control logic of the source modules:

* `app/utils.py`    — the `Throttle` rate limiter (`Throttle.ready`);
* `app/handlers.py` — the single-worker FIFO job queue (`_queue_worker`,
  `_enqueue_job`), URL extraction (`extract_urls`) and `handle_text`;
* `app/downloader.py` — landing-page resolution and the resumable retrying
  download loop of `download_http`.

Time-stamps, the network and the file system are replaced by explicit
parameters: a throttle run is given the list of monotonic clock readings of
its calls, the download loop is driven by a trace of per-attempt server
behaviours, and the partial artifact is tracked by its size.
-/

namespace GdriveBot

/-! ## `app/utils.py` — Throttle

`Throttle.__init__` stores `interval` and `_last = 0.0`; `ready()` reads the
monotonic clock and, when `now - _last >= interval`, sets `_last = now` and
returns `True`, otherwise returns `False`.  Clock readings are modelled as
rationals supplied by the caller, one per `ready()` call. -/

structure Throttle where
  interval : ℚ
  lastEmit : ℚ
deriving Repr, DecidableEq

/-- One `ready()` call at clock reading `now`: the returned flag and the
updated throttle state, exactly as in `Throttle.ready`. -/
def Throttle.ready (t : Throttle) (now : ℚ) : Bool × Throttle :=
  if t.interval ≤ now - t.lastEmit then (true, { t with lastEmit := now })
  else (false, t)

/-- Run a throttle over a list of clock readings (one `ready()` call each) and
collect the readings at which `ready()` returned `true`. -/
def emitTimes (t : Throttle) : List ℚ → List ℚ
  | [] => []
  | now :: rest =>
    match Throttle.ready t now with
    | (true, t1) => now :: emitTimes t1 rest
    | (false, t1) => emitTimes t1 rest

/-! ## `app/handlers.py` — queue position (`_enqueue_job`)

`_enqueue_job` computes
`position = _job_queue.qsize() + (1 if _worker_busy else 0) + 1`.
The queue state is the optional job the worker currently holds (the worker is
busy exactly while it holds one) together with the FIFO backlog. -/

structure QueueState where
  active : Option Nat
  queued : List Nat
deriving Repr, DecidableEq

/-- `_job_queue.qsize()`. -/
def qsize (st : QueueState) : Nat := st.queued.length

/-- `_worker_busy`: the worker has pulled a job and not yet finished it. -/
def workerBusy (st : QueueState) : Bool := st.active.isSome

/-- The position `_enqueue_job` reports at submission time:
`qsize + (1 if busy else 0) + 1`. -/
def enqueuePosition (st : QueueState) : Nat :=
  qsize st + (if workerBusy st then 1 else 0) + 1

/-- Enqueueing appends the job to the FIFO backlog (`_job_queue.put`). -/
def enqueue (st : QueueState) (j : Nat) : QueueState :=
  { st with queued := st.queued ++ [j] }

/-- The jobs that will be processed before any later arrival, in FIFO order:
the in-flight job, then the backlog. -/
def pendingList (st : QueueState) : List Nat := st.active.toList ++ st.queued

/-! ## `app/handlers.py` — the worker loop (`_queue_worker`)

Each iteration pulls a job, sets `_worker_busy`, edits the ticket to
"Starting…" inside its own try/except-pass, runs `_process_and_upload` under
a try whose `except Exception` edits the ticket to a failure message (that
edit again guarded by try/except-pass), and in `finally` clears
`_worker_busy` and calls `task_done`.  A job is modelled by what those three
fallible steps do. -/

structure JobSpec where
  /-- the initial `safe_edit(ticket, "⏳ Starting…")` raises -/
  startEditFails : Bool
  /-- `_process_and_upload` returns normally -/
  processOk : Bool
  /-- message of the exception `_process_and_upload` raises otherwise -/
  errMsg : String
  /-- the failure `ticket_msg.edit_text` itself raises -/
  failEditFails : Bool
deriving Repr, DecidableEq

inductive TicketStatus where
  /-- `_process_and_upload` ran to completion; the ticket shows whatever it
  last wrote -/
  | completed : TicketStatus
  /-- the worker wrote `❌ Failed: <msg>` on the ticket -/
  | failed (msg : String) : TicketStatus
  /-- processing faulted and the failure edit itself raised; the ticket keeps
  its stale text (the inner except-pass swallows the edit error) -/
  | stale : TicketStatus
deriving Repr, DecidableEq

/-- One worker iteration's effect on the job's ticket.  The "Starting…" edit
is wrapped in try/except-pass, so `startEditFails` never escapes; an
exception from `_process_and_upload` is caught by `except Exception` and
turned into a failure edit, itself guarded by try/except-pass. -/
def workerStep (j : JobSpec) : TicketStatus :=
  if j.processOk then .completed
  else if j.failEditFails then .stale
  else .failed j.errMsg

structure WorkerState where
  busy : Bool
  tickets : List TicketStatus
deriving Repr, DecidableEq

/-- The worker loop over a finite prefix of the queue: for each job it sets
`busy`, performs `workerStep`, and in `finally` clears `busy` — then loops.
It never propagates a job's exception. -/
def workerLoop : List JobSpec → WorkerState → WorkerState
  | [], s => s
  | j :: rest, s =>
    let s1 : WorkerState := { s with busy := true }
    let t := workerStep j
    let s2 : WorkerState := { busy := false, tickets := s1.tickets ++ [t] }
    workerLoop rest s2

/-- Ticket outcomes of a worker run started idle with no history. -/
def workerRun (jobs : List JobSpec) : List TicketStatus :=
  (workerLoop jobs ⟨false, []⟩).tickets

/-! ## `app/downloader.py` — landing-page resolution (`download_http`, first loop)

`download_http` runs `for _ in range(max_html_hops + 1)` with
`max_html_hops = 5`.  Each iteration GETs `cur_url`; when the response has a
`text/html` content type and a 2xx status it extracts a candidate with
`_extract_direct_link_from_html`: a fresh candidate (`nxt and nxt != cur_url`)
becomes the new `cur_url` and the loop continues, otherwise a `RuntimeError`
("This URL opens a web page, not a direct file…") is raised.  A non-HTML (or
non-2xx) response breaks out and the loop's current URL is downloaded.  When
all iterations are spent the `for` simply ends and control likewise falls
through to the download phase.  URLs are abstract (`Nat`); the network is a
function from URL to observed page. -/

/-- What the peek GET of one URL observes: `page c` is a response with
`text/html` content type and 2xx status whose body yields extraction
candidate `c` (`none` when `_extract_direct_link_from_html` finds nothing);
`file` is any other response. -/
inductive PageResult where
  | page (candidate : Option Nat) : PageResult
  | file : PageResult
deriving Repr, DecidableEq

/-- Outcome of the resolution phase. -/
inductive ResolveOutcome where
  /-- control reached the download phase with this `cur_url` -/
  | download (url : Nat) : ResolveOutcome
  /-- the `RuntimeError` "not a direct file" was raised -/
  | notAFile : ResolveOutcome
deriving Repr, DecidableEq

structure ResolveOut where
  result : ResolveOutcome
  /-- number of times `cur_url` was reassigned (HTML-extraction hops) -/
  hops : Nat
deriving Repr, DecidableEq

/-- The body of the `for _ in range(max_html_hops + 1)` loop, with the number
of remaining iterations as fuel; exhausting the range falls through to the
download phase with the current URL. -/
def resolveLoop (env : Nat → PageResult) : Nat → Nat → Nat → ResolveOut
  | 0, cur, hops => ⟨.download cur, hops⟩
  | fuel + 1, cur, hops =>
    match env cur with
    | .file => ⟨.download cur, hops⟩
    | .page none => ⟨.notAFile, hops⟩
    | .page (some nxt) =>
      if nxt ≠ cur then resolveLoop env fuel nxt (hops + 1)
      else ⟨.notAFile, hops⟩

def max_html_hops : Nat := 5

/-- The whole resolution phase of `download_http`. -/
def resolve (env : Nat → PageResult) (url : Nat) : ResolveOut :=
  resolveLoop env (max_html_hops + 1) url 0

/-! ## `app/downloader.py` — the resumable download loop (`download_http`)

The loop streams `cur_url` into `part`, resuming from `done = part.size` via
a `Range` header.  One attempt of the `while True` loop is driven by what the
server does on that attempt:

* `connError` — `sess.get` raises one of the transient exceptions
  (`ClientPayloadError`, `ClientConnectorError`, `TimeoutError`,
  `ConnectionResetError`) before a response arrives;
* `httpError` — `r.raise_for_status()` raises `ClientResponseError`, which is
  not in the transient tuple and so propagates (non-retryable);
* `resp r` — a 2xx response with headers `r.crTotal` (the total parsed out of
  `Content-Range` when that header is present, mentions `bytes`, and its
  part after `/` parses as an integer) and `r.contentLength`, delivering the
  chunks `r.chunks` (sizes), after which the stream either ends cleanly
  (`r.fault = false`) or raises a transient exception (`r.fault = true`).

Chunk bytes are tracked by size only; the progress card (time-gated on a
1-second wall clock) is not modelled — `lastDone` is kept because the
resume-rejected branch resets it alongside `done`. -/

structure StreamResp where
  status : Nat
  crTotal : Option Nat
  contentLength : Option Nat
  chunks : List Nat
  fault : Bool
deriving Repr, DecidableEq

inductive Attempt where
  | connError : Attempt
  | httpError : Attempt
  | resp (r : StreamResp) : Attempt
deriving Repr, DecidableEq

structure DlState where
  /-- `done`: bytes the loop believes are already on disk -/
  done : Nat
  /-- size of the `.part` file -/
  partSize : Nat
  /-- `total` (0 = unknown, as in the code's Python truthiness tests) -/
  total : Nat
  /-- `last_done`, the speed sample base -/
  lastDone : Nat
  /-- `retries_left` -/
  retriesLeft : Nat
deriving Repr, DecidableEq

/-- Header handling of one response, in source order: `Content-Range` total
when parseable; else fall back to `Content-Length` only when `total == 0`,
`done == 0` and `cl > 0`; then, if `done > 0 and r.status == 200` (server
ignored the `Range`), unlink the partial file and zero `done` and the speed
counters. -/
def applyHeaders (st : DlState) (r : StreamResp) : DlState :=
  let total1 :=
    match r.crTotal with
    | some t => t
    | none => st.total
  let total2 :=
    if total1 = 0 then
      match r.contentLength with
      | some cl => if st.done = 0 ∧ cl > 0 then cl else total1
      | none => total1
    else total1
  if st.done > 0 ∧ r.status = 200 then
    { done := 0, partSize := 0, total := total2, lastDone := 0,
      retriesLeft := st.retriesLeft }
  else
    { st with total := total2 }

/-- The chunk loop `async for chunk in r.content.iter_chunked(DL_CHUNK)`:
empty chunks are skipped (`if not chunk: continue`), each other chunk is
appended to `part` and added to `done`. -/
def writeChunks (st : DlState) (chunks : List Nat) : DlState :=
  chunks.foldl
    (fun s c =>
      if c = 0 then s
      else { s with done := s.done + c, partSize := s.partSize + c })
    st

/-- `max_retries = 5`. -/
def max_retries : Nat := 5

inductive DlOutcome where
  /-- the loop broke and `os.replace(part, dest)` ran: the final artifact has
  size `finalSize`; `total` is the value returned to the caller -/
  | completed (finalSize : Nat) (total : Nat) : DlOutcome
  /-- a transient exception was re-raised with `retries_left == 0` -/
  | transientFailed : DlOutcome
  /-- `raise_for_status` propagated an HTTP status error -/
  | httpFailed : DlOutcome
deriving Repr, DecidableEq

/-- The `while True` retry loop of `download_http`, driven by a finite trace
of attempts (`none` when the trace is exhausted without the loop ending).  A
transient exception decrements `retries_left` and continues when it is
positive, else re-raises.  A clean end of stream always breaks — the code
breaks when `total and done >= total`, and then breaks anyway ("server ended
stream and we didn't learn total") — after which the part file is renamed. -/
def dlLoop : List Attempt → DlState → Option DlOutcome
  | [], _ => none
  | a :: rest, st =>
    match a with
    | .connError =>
      if st.retriesLeft > 0 then
        dlLoop rest { st with retriesLeft := st.retriesLeft - 1 }
      else some .transientFailed
    | .httpError => some .httpFailed
    | .resp r =>
      let st2 := writeChunks (applyHeaders st r) r.chunks
      if r.fault then
        if st2.retriesLeft > 0 then
          dlLoop rest { st2 with retriesLeft := st2.retriesLeft - 1 }
        else some .transientFailed
      else
        if st2.total ≠ 0 ∧ st2.done ≥ st2.total then
          some (.completed st2.partSize st2.total)
        else
          some (.completed st2.partSize st2.total)

/-- The transfer phase of `download_http`: `done` starts at the size of the
pre-existing `.part` file, `total` at the `Content-Length` the HEAD probe
declared (0 when none), `last_done = done`, `retries_left = max_retries`. -/
def download (initialPart declaredTotal : Nat) (trace : List Attempt) :
    Option DlOutcome :=
  dlLoop trace
    { done := initialPart, partSize := initialPart, total := declaredTotal,
      lastDone := initialPart, retriesLeft := max_retries }

/-- Number of transient faults in a trace (connection errors plus faulting
streams); HTTP status errors are not transient. -/
def faultCount : List Attempt → Nat
  | [] => 0
  | .connError :: rest => faultCount rest + 1
  | .httpError :: rest => faultCount rest
  | .resp r :: rest => faultCount rest + (if r.fault then 1 else 0)

/-- Modelled from the spec: the same retry loop as `dlLoop` except that, as
the spec's retry policy states, "each successful chunk of new data resets the
retry budget to full" — a strictly positive chunk restores
`retriesLeft = max_retries` before the attempt's fault is handled. -/
def dlLoopSpecReset : List Attempt → DlState → Option DlOutcome
  | [], _ => none
  | a :: rest, st =>
    match a with
    | .connError =>
      if st.retriesLeft > 0 then
        dlLoopSpecReset rest { st with retriesLeft := st.retriesLeft - 1 }
      else some .transientFailed
    | .httpError => some .httpFailed
    | .resp r =>
      let st2 := writeChunks (applyHeaders st r) r.chunks
      let st3 :=
        if r.chunks.any (fun c => c ≠ 0) then
          { st2 with retriesLeft := max_retries }
        else st2
      if r.fault then
        if st3.retriesLeft > 0 then
          dlLoopSpecReset rest { st3 with retriesLeft := st3.retriesLeft - 1 }
        else some .transientFailed
      else
        some (.completed st3.partSize st3.total)

/-- Modelled from the spec: `download` with the budget-resetting loop. -/
def downloadSpecReset (initialPart declaredTotal : Nat)
    (trace : List Attempt) : Option DlOutcome :=
  dlLoopSpecReset trace
    { done := initialPart, partSize := initialPart, total := declaredTotal,
      lastDone := initialPart, retriesLeft := max_retries }

/-! ## `app/handlers.py` — `extract_urls` and `handle_text`

`_URL_RE = re.compile(r"(https?://\S+)", re.I)`; `extract_urls` returns `[]`
for falsy text and otherwise `findall` over the stripped text: the leftmost,
non-overlapping matches of a case-insensitive `http`/`https` scheme, `://`,
and a maximal nonempty run of non-whitespace, in text order.  Text is a list
of characters; `Char.isWhitespace` stands in for the regex's `\s` class. -/

/-- The `\S+` part: maximal run of non-whitespace characters. -/
def urlBody (l : List Char) : List Char :=
  l.takeWhile (fun ch => !ch.isWhitespace)

/-- What remains after the `\S+` run. -/
def afterBody (l : List Char) : List Char :=
  l.dropWhile (fun ch => !ch.isWhitespace)

/-- Try to match `https?://\S+` (case-insensitive scheme) at the head of the
list; on success return the matched text and the remaining input.  Mirrors
the regex's backtracking: `s?` is taken greedily, and falls back to the bare
`http://` reading when `://` does not follow the `s`. -/
def matchUrl (l : List Char) : Option (List Char × List Char) :=
  match l with
  | a :: b :: c :: d :: e :: f :: g :: h2 :: r2 =>
    if a.toLower = 'h' ∧ b.toLower = 't' ∧ c.toLower = 't' ∧ d.toLower = 'p' then
      if e.toLower = 's' ∧ f = ':' ∧ g = '/' ∧ h2 = '/' then
        if urlBody r2 = [] then none
        else some ([a, b, c, d, e, f, g, h2] ++ urlBody r2, afterBody r2)
      else if e = ':' ∧ f = '/' ∧ g = '/' then
        if urlBody (h2 :: r2) = [] then none
        else some ([a, b, c, d, e, f, g] ++ urlBody (h2 :: r2),
          afterBody (h2 :: r2))
      else none
    else none
  | _ => none

theorem afterBody_length_le (l : List Char) : (afterBody l).length ≤ l.length := by
  induction l with
  | nil => simp [afterBody]
  | cons a l ih =>
    cases hw : a.isWhitespace
    · simp only [afterBody, List.dropWhile_cons, hw, Bool.not_false, if_true] at ih ⊢
      simp only [List.length_cons]
      omega
    · simp [afterBody, List.dropWhile_cons, hw]

theorem matchUrl_rest_lt {l m rest : List Char}
    (h : matchUrl l = some (m, rest)) : rest.length < l.length := by
  match l with
  | [] | [_] | [_, _] | [_, _, _] | [_, _, _, _] | [_, _, _, _, _]
  | [_, _, _, _, _, _] | [_, _, _, _, _, _, _] => simp [matchUrl] at h
  | a :: b :: c :: d :: e :: f :: g :: h2 :: r2 =>
    simp only [matchUrl] at h
    split_ifs at h
    all_goals
      rw [Option.some.injEq, Prod.mk.injEq] at h
      obtain ⟨-, hr⟩ := h
      rw [← hr]
      have ha := afterBody_length_le r2
      have hb := afterBody_length_le (h2 :: r2)
      simp only [List.length_cons] at hb ⊢
      omega

/-- `re.findall` of `https?://\S+`: scan left to right, emit each leftmost
match, continue after it (non-overlapping). -/
def scanUrls (l : List Char) : List (List Char) :=
  match l with
  | [] => []
  | c :: cs =>
    match h : matchUrl (c :: cs) with
    | some (m, rest) => m :: scanUrls rest
    | none => scanUrls cs
termination_by l.length
decreasing_by
  · exact matchUrl_rest_lt h
  · simp

/-- Python's `str.strip()`: drop leading and trailing whitespace. -/
def pyStrip (l : List Char) : List Char :=
  ((l.dropWhile Char.isWhitespace).reverse.dropWhile Char.isWhitespace).reverse

/-- `extract_urls`: `[]` for `None` or empty text, else the regex matches
over the stripped text. -/
def extract_urls (text : Option (List Char)) : List (List Char) :=
  match text with
  | none => []
  | some t => if t = [] then [] else scanUrls (pyStrip t)

/-- What `handle_text` does with one incoming message. -/
inductive TextOutcome where
  /-- replied "No URL found. Send a direct link or upload a file." -/
  | noUrlReply : TextOutcome
  /-- called `_enqueue_job` with `src = urls[0]` -/
  | enqueued (url : List Char) : TextOutcome
deriving Repr, DecidableEq

/-- `handle_text`: extract the URLs; none → the no-URL reply, else enqueue
exactly one job for `urls[0]`. -/
def handle_text (text : Option (List Char)) : TextOutcome :=
  match extract_urls text with
  | [] => .noUrlReply
  | u :: _ => .enqueued u

/-- The jobs a `handle_text` outcome caused to be enqueued. -/
def jobsOf : TextOutcome → List (List Char)
  | .noUrlReply => []
  | .enqueued u => [u]

/-! ## Concrete scenarios used by the claims -/

/-- The spec's end-to-end scenario D: four consecutive transient faults, then
a clean full-length response on the fifth attempt. -/
def scenarioD : List Attempt :=
  List.replicate 4 .connError ++
    [.resp { status := 200, crTotal := none, contentLength := some 100,
             chunks := [100], fault := false }]

/-- An attempt that durably writes strictly positive data and then faults. -/
def writesDataBeforeFault : Attempt → Bool
  | .resp r => decide (0 < r.chunks.sum) && r.fault
  | _ => false

/-- Six attempts, each delivering a fresh 10-byte chunk before a transient
fault: every fault has intervening successfully written data. -/
def noResetTrace : List Attempt :=
  .resp { status := 200, crTotal := none, contentLength := some 100,
          chunks := [10], fault := true } ::
    List.replicate 5
      (.resp { status := 206, crTotal := some 100, contentLength := none,
               chunks := [10], fault := true })

/-- A transfer state with a 7-byte pre-existing partial artifact. -/
def resumeRejectedState : DlState :=
  { done := 7, partSize := 7, total := 0, lastDone := 7, retriesLeft := 5 }

/-- A full (status 200) response that ignores the `Range` header and streams
the complete 50-byte body cleanly. -/
def fullResp : StreamResp :=
  { status := 200, crTotal := none, contentLength := some 50,
    chunks := [30, 20], fault := false }

/-- A response announcing a 100-byte total via `Content-Range` whose stream
ends cleanly after only 50 bytes. -/
def earlyEofResp : StreamResp :=
  { status := 200, crTotal := some 100, contentLength := none,
    chunks := [50], fault := false }

/-- A fresh transfer state (no partial artifact). -/
def clState : DlState :=
  { done := 0, partSize := 0, total := 0, lastDone := 0, retriesLeft := 5 }

/-- A transfer state resuming from a 3-byte partial artifact. -/
def clStateOff : DlState :=
  { done := 3, partSize := 3, total := 0, lastDone := 3, retriesLeft := 5 }

/-- A partial-content response with no `Content-Range` total but a declared
`Content-Length` of 77. -/
def clResp : StreamResp :=
  { status := 206, crTotal := none, contentLength := some 77,
    chunks := [], fault := false }

/-! ## Supporting lemmas -/

theorem emitTimes_cons (t : Throttle) (now : ℚ) (rest : List ℚ) :
    emitTimes t (now :: rest) =
      if t.interval ≤ now - t.lastEmit
      then now :: emitTimes { t with lastEmit := now } rest
      else emitTimes t rest := by
  by_cases hc : t.interval ≤ now - t.lastEmit <;>
    simp [emitTimes, Throttle.ready, hc]

theorem emitTimes_all_ge (t : Throttle) (ts : List ℚ) (h : 0 ≤ t.interval) :
    ∀ x ∈ emitTimes t ts, t.interval ≤ x - t.lastEmit := by
  induction ts generalizing t with
  | nil => simp [emitTimes]
  | cons now rest ih =>
    intro x hx
    rw [emitTimes_cons] at hx
    by_cases hc : t.interval ≤ now - t.lastEmit
    · rw [if_pos hc] at hx
      rcases List.mem_cons.mp hx with hx | hx
      · exact hx ▸ hc
      · have := ih { t with lastEmit := now } h x hx
        simp only at this
        linarith
    · rw [if_neg hc] at hx
      exact ih t h x hx

theorem emitTimes_chain (t : Throttle) (ts : List ℚ) (h : 0 ≤ t.interval) :
    (emitTimes t ts).Chain' (fun a b => t.interval ≤ b - a) := by
  induction ts generalizing t with
  | nil => simp [emitTimes]
  | cons now rest ih =>
    rw [emitTimes_cons]
    by_cases hc : t.interval ≤ now - t.lastEmit
    · rw [if_pos hc]
      refine List.chain'_cons'.mpr ⟨?_, ih { t with lastEmit := now } h⟩
      intro y hy
      have hmem : y ∈ emitTimes { t with lastEmit := now } rest :=
        List.mem_of_mem_head? hy
      have := emitTimes_all_ge { t with lastEmit := now } rest h y hmem
      simpa using this
    · rw [if_neg hc]
      exact ih t h

theorem workerLoop_tickets (jobs : List JobSpec) (s : WorkerState) :
    (workerLoop jobs s).tickets = s.tickets ++ jobs.map workerStep := by
  induction jobs generalizing s with
  | nil => simp [workerLoop]
  | cons j rest ih => simp [workerLoop, ih]

theorem writeChunks_eq (st : DlState) (chunks : List Nat) :
    writeChunks st chunks =
      { st with done := st.done + chunks.sum,
                partSize := st.partSize + chunks.sum } := by
  induction chunks generalizing st with
  | nil => simp [writeChunks]
  | cons c cs ih =>
    by_cases h : c = 0
    · subst h
      have h0 : writeChunks st (0 :: cs) = writeChunks st cs := by
        simp [writeChunks]
      rw [h0, ih]
      simp
    · have h1 : writeChunks st (c :: cs) =
          writeChunks { st with done := st.done + c, partSize := st.partSize + c } cs := by
        simp [writeChunks, h]
      rw [h1, ih]
      simp [Nat.add_assoc]

theorem applyHeaders_retries (st : DlState) (r : StreamResp) :
    (applyHeaders st r).retriesLeft = st.retriesLeft := by
  by_cases hc : st.done > 0 ∧ r.status = 200 <;>
    simp [applyHeaders, hc]

theorem applyHeaders_reset (st : DlState) (r : StreamResp)
    (hdone : 0 < st.done) (hstatus : r.status = 200) :
    (applyHeaders st r).done = 0 ∧ (applyHeaders st r).partSize = 0 ∧
    (applyHeaders st r).lastDone = 0 := by
  unfold applyHeaders
  rw [if_pos ⟨hdone, hstatus⟩]
  exact ⟨rfl, rfl, rfl⟩

theorem dlLoop_cons_conn (rest : List Attempt) (st : DlState) :
    dlLoop (.connError :: rest) st =
      if st.retriesLeft > 0 then dlLoop rest { st with retriesLeft := st.retriesLeft - 1 }
      else some .transientFailed := rfl

theorem dlLoop_cons_http (rest : List Attempt) (st : DlState) :
    dlLoop (.httpError :: rest) st = some .httpFailed := rfl

theorem dlLoop_cons_resp (r : StreamResp) (rest : List Attempt) (st : DlState) :
    dlLoop (.resp r :: rest) st =
      if r.fault then
        (if (writeChunks (applyHeaders st r) r.chunks).retriesLeft > 0
         then dlLoop rest
            { writeChunks (applyHeaders st r) r.chunks with
              retriesLeft := (writeChunks (applyHeaders st r) r.chunks).retriesLeft - 1 }
         else some .transientFailed)
      else some (.completed (writeChunks (applyHeaders st r) r.chunks).partSize
                            (writeChunks (applyHeaders st r) r.chunks).total) := by
  by_cases hf : r.fault <;> simp only [dlLoop, hf, if_true, if_false, ite_self]

theorem dlLoop_no_transient (trace : List Attempt) (st : DlState)
    (h : faultCount trace ≤ st.retriesLeft) :
    dlLoop trace st ≠ some .transientFailed := by
  induction trace generalizing st with
  | nil => simp [dlLoop]
  | cons a rest ih =>
    cases a with
    | connError =>
      simp only [faultCount] at h
      have hpos : st.retriesLeft > 0 := by omega
      rw [dlLoop_cons_conn, if_pos hpos]
      refine ih _ ?_
      show faultCount rest ≤ st.retriesLeft - 1
      omega
    | httpError =>
      rw [dlLoop_cons_http]
      simp
    | resp r =>
      have hretr : (writeChunks (applyHeaders st r) r.chunks).retriesLeft = st.retriesLeft := by
        rw [writeChunks_eq]
        exact applyHeaders_retries st r
      rw [dlLoop_cons_resp]
      cases hf : r.fault
      · simp
      · simp only [faultCount] at h
        simp [hf] at h
        have hpos : (writeChunks (applyHeaders st r) r.chunks).retriesLeft > 0 := by
          rw [hretr]
          omega
        rw [if_pos rfl, if_pos hpos]
        refine ih _ ?_
        show faultCount rest ≤ (writeChunks (applyHeaders st r) r.chunks).retriesLeft - 1
        rw [hretr]
        omega

theorem resolveLoop_hops_le (env : Nat → PageResult) (fuel cur hops : Nat) :
    (resolveLoop env fuel cur hops).hops ≤ hops + fuel := by
  induction fuel generalizing cur hops with
  | zero => simp [resolveLoop]
  | succ n ih =>
    simp only [resolveLoop]
    cases env cur with
    | file => simp
    | page c =>
      cases c with
      | none => simp
      | some nxt =>
        by_cases hn : nxt = cur
        · simp [hn]
        · have := ih nxt (hops + 1)
          simp only [if_pos (by exact hn : nxt ≠ cur)]
          omega

/-! ## The claims -/

/-- C7: throttled progress — along any sequence of `ready()` calls, every
emission (call returning `true`) is at least `interval` after the previous
emission, and the first emission is at least `interval` after the initial
`lastEmit`; hence within any window shorter than `interval` starting at an
emitting call every later call returns `false`, and updates are forwarded at
most once per interval regardless of chunk frequency. -/
theorem throttle_emits_at_most_once_per_interval
    (t : Throttle) (ts : List ℚ) (h : 0 ≤ t.interval) :
    (∀ x ∈ emitTimes t ts, t.interval ≤ x - t.lastEmit) ∧
    (emitTimes t ts).Chain' (fun a b => t.interval ≤ b - a) :=
  ⟨emitTimes_all_ge t ts h, emitTimes_chain t ts h⟩

/-- Witness for C7: the throttle of `EDIT_THROTTLE_SECS = 1.0` starting at
clock 0, polled at times 1, 3/2, 2, 5/2: its emissions are spaced at least
one second apart. -/
theorem throttle_witness :
    (∀ x ∈ emitTimes ⟨1, 0⟩ [1, 3/2, 2, 5/2], (1 : ℚ) ≤ x - 0) ∧
    (emitTimes ⟨1, 0⟩ [1, 3/2, 2, 5/2]).Chain' (fun a b => (1 : ℚ) ≤ b - a) :=
  throttle_emits_at_most_once_per_interval ⟨1, 0⟩ [1, 3/2, 2, 5/2] (by norm_num)

/-- C6: the position `_enqueue_job` reports equals the number of jobs queued
or processing plus one (the new job is processed after exactly that many
jobs), and a submission while the worker is idle with an empty queue is
reported at position 1. -/
theorem queue_position_correct (st : QueueState) (j : Nat) :
    enqueuePosition st = (pendingList st).length + 1 ∧
    pendingList (enqueue st j) = pendingList st ++ [j] ∧
    (workerBusy st = false → st.queued = [] → enqueuePosition st = 1) := by
  cases st with
  | mk active queued =>
    cases active <;>
      simp [enqueuePosition, qsize, workerBusy, pendingList, enqueue]

/-- Witness for C6: idle worker, empty queue — reported position 1. -/
theorem queue_position_witness : enqueuePosition ⟨none, []⟩ = 1 :=
  (queue_position_correct ⟨none, []⟩ 0).2.2 rfl rfl

/-- C1: the worker converts any exception raised while processing a job into
a `❌ Failed` edit of that job's ticket and continues: a run over any finite
list of pulled jobs produces exactly one ticket outcome per job in order
(`workerRun jobs = jobs.map workerStep`), so a faulting job never stops later
jobs from being processed, and a job whose processing raises (and whose
failure edit succeeds) ends with the failure status carrying the exception's
message. -/
theorem worker_isolates_job_faults (jobs : List JobSpec) :
    workerRun jobs = jobs.map workerStep ∧
    (∀ j : JobSpec, j.processOk = false → j.failEditFails = false →
      workerStep j = .failed j.errMsg) := by
  constructor
  · simpa [workerRun] using workerLoop_tickets jobs ⟨false, []⟩
  · intro j h1 h2
    simp [workerStep, h1, h2]

/-- Witness for C1: a faulting job followed by a succeeding one — the first
ticket shows the failure, the second job is still processed. -/
theorem worker_witness :
    workerRun [⟨false, false, "boom", false⟩, ⟨false, true, "", false⟩] =
      [TicketStatus.failed "boom", TicketStatus.completed] ∧
    workerStep ⟨false, false, "boom", false⟩ = .failed "boom" :=
  ⟨by rw [(worker_isolates_job_faults _).1]; rfl,
   (worker_isolates_job_faults []).2 ⟨false, false, "boom", false⟩ rfl rfl⟩

/-- C2 (counterexample): the retry budget is NOT reset by successfully
written data.  On `noResetTrace` — six attempts, every one of which durably
writes a fresh 10-byte chunk before its transient fault, so no two failed
attempts ever occur without intervening successfully written data — the
`download_http` loop still exhausts its budget and fails, whereas the loop
the spec describes (budget restored to full by each positive chunk,
`downloadSpecReset`) never exhausts it on this trace. -/
theorem download_budget_not_reset_cex :
    download 0 0 noResetTrace = some .transientFailed ∧
    (∀ a ∈ noResetTrace, writesDataBeforeFault a = true) ∧
    downloadSpecReset 0 0 noResetTrace = none := by
  refine ⟨by decide, by decide, by decide⟩

/-- C2 (amended): the retry budget of `download_http` is a fixed total of
`max_retries = 5` for the whole transfer and is never replenished: a
transfer fails with a transient fault only when the trace contains more than
5 transient faults in total (consecutive or not); in particular a download
that fails 4 consecutive transient faults and then succeeds on the 5th
attempt (the spec's scenario D) completes successfully. -/
theorem download_fixed_total_retry_budget (p t : Nat) (trace : List Attempt)
    (h : faultCount trace ≤ max_retries) :
    download p t trace ≠ some .transientFailed ∧
    download 0 0 scenarioD = some (.completed 100 100) :=
  ⟨dlLoop_no_transient trace _ h, by decide⟩

/-- Witness for C2: scenario D has 4 transient faults, within budget — it
does not fail transiently and completes with the full 100 bytes. -/
theorem download_budget_witness :
    download 0 0 scenarioD ≠ some .transientFailed ∧
    download 0 0 scenarioD = some (.completed 100 100) :=
  download_fixed_total_retry_budget 0 0 scenarioD (by decide)

/-- C3 (counterexample): with every URL an HTML page whose extracted
candidate is a fresh URL, resolution takes 6 hops (one per iteration of
`for _ in range(max_html_hops + 1)`) — exceeding the claimed limit of 5 —
and, the range exhausted, falls through to download the last candidate
instead of raising the not-a-file error. -/
theorem resolve_hop_limit_cex :
    resolve (fun n => .page (some (n + 1))) 0 = ⟨.download 6, 6⟩ ∧
    5 < (resolve (fun n => .page (some (n + 1))) 0).hops ∧
    (resolve (fun n => .page (some (n + 1))) 0).result ≠ .notAFile := by
  refine ⟨?_, ?_, ?_⟩ <;> decide

/-- C3 (amended): landing-page resolution takes at most
`max_html_hops + 1 = 6` HTML-extraction hops (exhausting the iteration
budget proceeds to download the most recently extracted candidate rather
than raising), and an HTML page whose extracted candidate equals the current
URL terminates immediately in the not-a-file failure instead of looping. -/
theorem resolve_hop_budget (env : Nat → PageResult) (url : Nat) :
    (resolve env url).hops ≤ max_html_hops + 1 ∧
    (∀ fuel cur hops, env cur = .page (some cur) →
      resolveLoop env (fuel + 1) cur hops = ⟨.notAFile, hops⟩) := by
  constructor
  · simpa using resolveLoop_hops_le env (max_html_hops + 1) url 0
  · intro fuel cur hops h
    simp [resolveLoop, h]

/-- Witness for C3: a page redirecting to itself fails immediately with zero
hops, and its resolution respects the hop bound. -/
theorem resolve_hop_budget_witness :
    (resolve (fun _ => .page (some 3)) 3).hops ≤ max_html_hops + 1 ∧
    resolveLoop (fun _ => .page (some 3)) (5 + 1) 3 0 = ⟨.notAFile, 0⟩ :=
  ⟨(resolve_hop_budget (fun _ => .page (some 3)) 3).1,
   (resolve_hop_budget (fun _ => .page (some 3)) 3).2 5 3 0 rfl⟩

/-- C4: when the starting offset is nonzero and the server answers with a
full 200 response, `download_http` truncates the partial artifact and resets
the byte counter and speed counter to zero (`applyHeaders` zeroes `done`,
`partSize` and `lastDone`), and restarts the stream from the beginning: a
clean full 200 response then completes with a final artifact of exactly the
size of that one full transfer — no duplicated prefix. -/
theorem resume_rejected_restarts (st : DlState) (r : StreamResp) (rest : List Attempt)
    (hdone : 0 < st.done) (hstatus : r.status = 200) (hfault : r.fault = false) :
    (applyHeaders st r).done = 0 ∧ (applyHeaders st r).partSize = 0 ∧
    (applyHeaders st r).lastDone = 0 ∧
    dlLoop (.resp r :: rest) st =
      some (.completed r.chunks.sum (applyHeaders st r).total) := by
  obtain ⟨h1, h2, h3⟩ := applyHeaders_reset st r hdone hstatus
  refine ⟨h1, h2, h3, ?_⟩
  rw [dlLoop_cons_resp, if_neg (by simp [hfault]), writeChunks_eq]
  simp [h2]

/-- Witness for C4: a 7-byte partial artifact, a server ignoring the range
with a clean full 50-byte stream — the counters reset and the run completes
with exactly the 50 streamed bytes. -/
theorem resume_rejected_witness :
    (applyHeaders resumeRejectedState fullResp).done = 0 ∧
    (applyHeaders resumeRejectedState fullResp).partSize = 0 ∧
    (applyHeaders resumeRejectedState fullResp).lastDone = 0 ∧
    dlLoop [.resp fullResp] resumeRejectedState =
      some (.completed fullResp.chunks.sum
        (applyHeaders resumeRejectedState fullResp).total) :=
  resume_rejected_restarts _ _ [] (by decide) rfl rfl

/-- C5 (code bug): the code's retry loop breaks — and renames `.part` to its
final name — on ANY clean end of stream, even when the total is known and
unreached.  On a response that announces a 100-byte total via
`Content-Range` but ends cleanly after 50 bytes, `download_http` completes
and renames a 50-byte artifact although `bytesDone < bytesTotal` and all 5
retries remain, contradicting the invariant (and the code's own comment,
which reserves that break for the case where no total was learned). -/
theorem rename_while_incomplete :
    download 0 0 [.resp earlyEofResp] = some (.completed 50 100) ∧ 50 < 100 :=
  ⟨by decide, by norm_num⟩

/-- C8: after the `Content-Range` handling, a declared `Content-Length` is
adopted as the total only at starting offset zero: with `done > 0` the total
can only come from `Content-Range` (or stay unchanged) — the response's
`Content-Length` is never consulted — while with `done = 0`, an unknown
total and no usable `Content-Range`, a positive `Content-Length` is
adopted. -/
theorem content_length_trust (st : DlState) (r : StreamResp) :
    (0 < st.done → (applyHeaders st r).total = r.crTotal.getD st.total) ∧
    (st.done = 0 → st.total = 0 → r.crTotal = none →
      ∀ cl, r.contentLength = some cl → 0 < cl → (applyHeaders st r).total = cl) := by
  constructor
  · intro hdone
    have hne : ¬ st.done = 0 := by omega
    cases hcr : r.crTotal with
    | none =>
      cases hcl : r.contentLength with
      | none =>
        by_cases hc : st.done > 0 ∧ r.status = 200 <;>
          simp [applyHeaders, hcr, hcl, hc]
      | some cl =>
        by_cases hc : st.done > 0 ∧ r.status = 200 <;>
          simp [applyHeaders, hcr, hcl, hc, hne]
    | some tcr =>
      by_cases h0 : tcr = 0
      · subst h0
        cases hcl : r.contentLength with
        | none =>
          by_cases hc : st.done > 0 ∧ r.status = 200 <;>
            simp [applyHeaders, hcr, hcl, hc]
        | some cl =>
          by_cases hc : st.done > 0 ∧ r.status = 200 <;>
            simp [applyHeaders, hcr, hcl, hc, hne]
      · by_cases hc : st.done > 0 ∧ r.status = 200 <;>
          simp [applyHeaders, hcr, hc, h0]
  · intro hdone htot hcr cl hcl hpos
    have hc : ¬ (st.done > 0 ∧ r.status = 200) := by
      intro hx
      omega
    simp [applyHeaders, hcr, hcl, hc, hdone, htot, hpos]

/-- Witness for C8: on a range response with `Content-Length: 77` and no
`Content-Range`, the offset-3 state keeps its total unchanged while the
offset-0 state adopts 77. -/
theorem content_length_witness :
    (applyHeaders clStateOff clResp).total = clResp.crTotal.getD clStateOff.total ∧
    (applyHeaders clState clResp).total = 77 :=
  ⟨(content_length_trust clStateOff clResp).1 (by decide),
   (content_length_trust clState clResp).2 rfl rfl rfl 77 rfl (by decide)⟩

/-- C9: resolution is idempotent on direct URLs — whenever the first content
fetch of a URL observes a non-HTML response, resolution reaches the download
phase with that URL unchanged after zero hops. -/
theorem resolve_direct (env : Nat → PageResult) (url : Nat) (h : env url = .file) :
    resolve env url = ⟨.download url, 0⟩ := by
  simp [resolve, resolveLoop, max_html_hops, h]

/-- Witness for C9: a network in which every URL serves a file directly. -/
theorem resolve_direct_witness :
    resolve (fun _ => PageResult.file) 42 = ⟨.download 42, 0⟩ :=
  resolve_direct (fun _ => PageResult.file) 42 rfl

/-- C10: `handle_text` creates at most one job: the enqueued jobs are
exactly the first extracted URL (in text order) or none, and the no-URL
reply is sent precisely when the text contains no URL. -/
theorem handle_text_single_job (text : Option (List Char)) :
    jobsOf (handle_text text) = (extract_urls text).take 1 ∧
    (handle_text text = .noUrlReply ↔ extract_urls text = []) := by
  rcases h : extract_urls text with _ | ⟨u, us⟩ <;>
    simp [handle_text, jobsOf, h]

/-- Witness for C10: a two-URL message enqueues only the first URL. -/
theorem handle_text_witness :
    jobsOf (handle_text (some "http://a.example http://b.example".data)) =
      (extract_urls (some "http://a.example http://b.example".data)).take 1 :=
  (handle_text_single_job _).1

end GdriveBot
